import Mathlib

/-!
# Verification of the BattGO PHY, controller and battery driver

Shallow embedding of the go-battgo repository: the PHY byte scrambler,
the PHY receive state machine and transmit encoder (`phy/phy.go`), the
controller address allocator and command timeout wrapper
(`controller/controller.go`), the controller device-table life cycle
(`controller/detect.go`, `controller/controller.go`) and the battery
driver (`controller/functions/battery/battery.go`).

Machine integers are modelled as `Nat` with explicit `% 256` / `% 65536`
where the Go code wraps; byte slices are `List Nat`.
-/

namespace BattGo

/-! ## Scrambler (`phy.go`, `scramble`)

`xor := seed + 136`; per byte: `out[i] = in[i] ^ xor; xor += seed; xor ^= seed`,
all on `uint8` (mod 256). -/

/-- One step of the keystream register: `xor += seed; xor ^= seed` on uint8. -/
def scrambleNext (seed x : Nat) : Nat :=
  ((x + seed) % 256) ^^^ seed

/-- The scramble loop starting from keystream register value `x`. -/
def scrambleFrom (seed : Nat) : Nat → List Nat → List Nat
  | _, [] => []
  | x, b :: rest => (b ^^^ x) :: scrambleFrom seed (scrambleNext seed x) rest

/-- `scramble` of `phy.go`: initial register is `seed + 136` (uint8). -/
def scramble (seed : Nat) (input : List Nat) : List Nat :=
  scrambleFrom seed ((seed + 136) % 256) input

theorem scrambleFrom_involutive (seed : Nat) :
    ∀ (x : Nat) (p : List Nat), scrambleFrom seed x (scrambleFrom seed x p) = p := by
  intro x p
  induction p generalizing x with
  | nil => rfl
  | cons b rest ih =>
      simp [scrambleFrom, Nat.xor_assoc, ih]

theorem scrambleFrom_seed120_id :
    ∀ (p : List Nat), scrambleFrom 120 0 p = p := by
  intro p
  induction p with
  | nil => rfl
  | cons b rest ih =>
      have h : scrambleNext 120 0 = 0 := by decide
      simp [scrambleFrom, h, ih]

theorem scrambleFrom_length (seed : Nat) :
    ∀ (x : Nat) (p : List Nat), (scrambleFrom seed x p).length = p.length := by
  intro x p
  induction p generalizing x with
  | nil => rfl
  | cons b rest ih => simp [scrambleFrom, ih]

/-- The keystream register after `n` steps from `x`. -/
def scrambleIter (seed : Nat) (x : Nat) : Nat → Nat
  | 0 => x
  | n + 1 => scrambleIter seed (scrambleNext seed x) n

theorem scrambleFrom_append (seed : Nat) :
    ∀ (x : Nat) (p q : List Nat),
      scrambleFrom seed x (p ++ q) =
        scrambleFrom seed x p ++ scrambleFrom seed (scrambleIter seed x p.length) q := by
  intro x p q
  induction p generalizing x with
  | nil => rfl
  | cons b rest ih => simp [scrambleFrom, ih, scrambleIter]

/-- Taking the first `p.length` scrambled bytes of `p ++ q` scrambles exactly `p`. -/
theorem scrambleFrom_take (seed : Nat) (x : Nat) (p q : List Nat) :
    (scrambleFrom seed x (p ++ q)).take p.length = scrambleFrom seed x p := by
  rw [scrambleFrom_append]
  rw [List.take_append_of_le_length (by simp [scrambleFrom_length])]
  simp [List.take_of_length_le, scrambleFrom_length]

/-- C6 helper: `scramble` with any seed is an involution. -/
theorem scramble_scramble (s : Nat) (p : List Nat) :
    scramble s (scramble s p) = p :=
  scrambleFrom_involutive s _ p

/-- C2 helper: `scramble` with seed 120 is the identity. -/
theorem scramble_seed120 (p : List Nat) : scramble 120 p = p := by
  unfold scramble
  have h : (120 + 136) % 256 = 0 := by decide
  rw [h]
  exact scrambleFrom_seed120_id p

end BattGo

namespace BattGo

/-- C2: scrambling with seed 120 is the identity on every payload: the initial
keystream register `(120 + 136) % 256` is `0` and each step
`((0 + 120) % 256) ^^^ 120` returns `0`, so the keystream is all zeros and the
receiver's unconditional descrambling of a verbatim payload sent with seed byte
120 recovers the cleartext. -/
theorem c2_seed120_identity :
    (120 + 136) % 256 = 0 ∧ scrambleNext 120 0 = 0 ∧
      ∀ p : List Nat, scramble 120 p = p :=
  ⟨by decide, by decide, scramble_seed120⟩

/-- C6: for every payload `p` and seed `s`, applying the scrambler twice with
the same seed returns the original payload — the scrambler is an involution
and decryption uses the same procedure. -/
theorem c6_scramble_involution :
    ∀ (s : Nat) (p : List Nat), scramble s (scramble s p) = p :=
  scramble_scramble

end BattGo

namespace BattGo

/-! ## PHY receive state machine (`phy.go`, `Run`)

State: `rxState ∈ {0 IDLE, 1 SRC, 2 DST, 3 LEN, 4 BODY}`, a byte-stuffing
escape flag, the current source/destination addresses, the expected body
length `rxLen`, the `uint16` running checksum `sum` and the collected body
buffer.  Events model the two upward callbacks `RXHandlePresense` and
`RXHandlePacket`. -/

/-- An upward callback invocation of the PHY receive loop. -/
inductive Ev
  | presence (m : Nat)
  | packet (addrSource addrDest : Nat) (payload : List Nat)
  deriving DecidableEq, Repr

/-- The mutable locals of `PHY.Run`. -/
structure RxState where
  rxState : Nat
  rxLen : Nat
  addrSource : Nat
  addrDest : Nat
  sum : Nat
  payload : List Nat
  isEscaped : Bool
  deriving DecidableEq, Repr

/-- Initial state of `PHY.Run` (all locals zero / empty / false). -/
def rxInit : RxState :=
  ⟨0, 0, 0, 0, 0, [], false⟩

/-- `uint16` addition used for the checksum accumulator. -/
def add16 (a b : Nat) : Nat := (a + b) % 65536

/-- The `switch rxState` dispatch of `PHY.Run`, after escape processing. On a
valid checksum the body buffer is descrambled in place (`scramble(payload[0],
payload[1:], payload[1:])`, which also rewrites the two trailing checksum
bytes) and the slice `payload[1:csumEnd]` — here the first `length - 3`
descrambled bytes — is delivered. -/
def rxDispatch (s : RxState) (m : Nat) : RxState × List Ev :=
  match s.rxState with
  | 0 => (s, [Ev.presence m])
  | 1 => ({ s with addrSource := m, sum := add16 s.sum m, rxState := 2 }, [])
  | 2 => ({ s with addrDest := m, sum := add16 s.sum m, rxState := 3 }, [])
  | 3 =>
      if m > 0 then
        ({ s with payload := [], rxLen := m + 2, sum := add16 s.sum m, rxState := 4 }, [])
      else
        ({ s with rxState := 0 }, [])
  | 4 =>
      let p := s.payload ++ [m]
      if p.length = s.rxLen then
        let sum2 := (p.take (p.length - 2)).foldl add16 s.sum
        if p.getD (p.length - 2) 0 + 256 * p.getD (p.length - 1) 0 = sum2 then
          let p2 := p.getD 0 0 :: scramble (p.getD 0 0) (p.drop 1)
          ({ s with payload := p2, sum := sum2, rxState := 0 },
            [Ev.packet s.addrSource s.addrDest
              ((scramble (p.getD 0 0) (p.drop 1)).take (p.length - 3))])
        else
          ({ s with payload := p, sum := sum2, rxState := 0 }, [])
      else
        ({ s with payload := p }, [])
  | _ => ({ s with rxState := 0 }, [])

/-- One received byte: the escape/byte-stuffing logic of `PHY.Run`, falling
through into the state dispatch. An unescaped `0xAA` only sets the escape
flag; an escaped non-`0xAA` byte marks a frame start (state `SRC`, checksum
reset); an escaped `0xAA` is a literal stuffed byte. -/
def rxByte (s : RxState) (m : Nat) : RxState × List Ev :=
  if s.isEscaped = false then
    if m = 170 then ({ s with isEscaped := true }, [])
    else rxDispatch s m
  else
    if m ≠ 170 then rxDispatch { s with isEscaped := false, rxState := 1, sum := 0 } m
    else rxDispatch { s with isEscaped := false } m

/-- Feed a byte stream through the receive state machine, collecting events. -/
def rxRun (s : RxState) : List Nat → RxState × List Ev
  | [] => (s, [])
  | m :: rest =>
      ((rxRun (rxByte s m).1 rest).1, (rxByte s m).2 ++ (rxRun (rxByte s m).1 rest).2)

/-! ## PHY transmit encoder (`phy.go`, `TXSendPacket`) -/

/-- The bytes emitted for one logical byte: `0xAA` is byte-stuffed. -/
def stuff (m : Nat) : List Nat := if m = 170 then [170, m] else [m]

/-- The `addByte` closure of `TXSendPacket`: appends the (stuffed) byte and
adds it to the `uint16` checksum. -/
def txAdd (acc : List Nat × Nat) (m : Nat) : List Nat × Nat :=
  (acc.1 ++ stuff m, add16 acc.2 m)

/-- `TXSendPacket`: the wire bytes produced for `(src, dst, payload)` with the
scrambler disabled (seed byte 120, payload verbatim) or enabled (seed byte
`txSeed`, payload scrambled with `txSeed`). -/
def txSendPacket (disableScrambler : Bool) (txSeed : Nat) (src dst : Nat)
    (payload : List Nat) : List Nat :=
  let seed := if disableScrambler then 120 else txSeed
  let payloadScrambled := if disableScrambler then payload else scramble txSeed payload
  let acc1 := txAdd ([170], 0) src
  let acc2 := txAdd acc1 dst
  let acc3 := txAdd acc2 ((payload.length + 1) % 256)
  let acc4 := txAdd acc3 seed
  let acc5 := payloadScrambled.foldl txAdd acc4
  let finalSum := acc5.2
  let acc6 := txAdd acc5 (finalSum % 256)
  let acc7 := txAdd acc6 (finalSum / 256 % 256)
  acc7.1

/-- The concatenation of the stuffed encodings of a byte list. -/
def stuffAll : List Nat → List Nat
  | [] => []
  | b :: rest => stuff b ++ stuffAll rest

/-! ### Helper lemmas about the receive machine and the encoder -/

theorem rxRun_append (l1 l2 : List Nat) : ∀ (s : RxState),
    rxRun s (l1 ++ l2) =
      ((rxRun (rxRun s l1).1 l2).1, (rxRun s l1).2 ++ (rxRun (rxRun s l1).1 l2).2) := by
  induction l1 with
  | nil => intro s; simp [rxRun]
  | cons m rest ih =>
      intro s
      simp [rxRun, ih]

theorem eraseEscape_eq (s : RxState) (h : s.isEscaped = false) :
    { s with isEscaped := false } = s := by
  cases s
  simp_all

theorem rxDispatch_isEscaped (s : RxState) (m : Nat) :
    (rxDispatch s m).1.isEscaped = s.isEscaped := by
  unfold rxDispatch
  split
  · rfl
  · rfl
  · rfl
  · split <;> rfl
  · dsimp only
    split
    · split <;> rfl
    · rfl
  · rfl

theorem rxByte_unescaped (s : RxState) (m : Nat) (h : s.isEscaped = false)
    (hm : m ≠ 170) : rxByte s m = rxDispatch s m := by
  simp [rxByte, h, hm]

theorem rxByte_escape_set (s : RxState) (h : s.isEscaped = false) :
    rxByte s 170 = ({ s with isEscaped := true }, []) := by
  simp [rxByte, h]

theorem rxByte_escape_lit (s : RxState) (h : s.isEscaped = false) :
    rxByte { s with isEscaped := true } 170 = rxDispatch s 170 := by
  have ht : ({ s with isEscaped := true } : RxState).isEscaped = true := rfl
  simp only [rxByte, ht, Bool.true_eq_false, if_false, ne_eq, not_true_eq_false]
  exact congrFun (congrArg rxDispatch (eraseEscape_eq s h)) 170

/-- Processing the stuffed encoding of one byte from an unescaped state is the
plain dispatch of that byte. -/
theorem rxRun_stuff_cons (s : RxState) (m : Nat) (rest : List Nat)
    (h : s.isEscaped = false) :
    rxRun s (stuff m ++ rest) =
      ((rxRun (rxDispatch s m).1 rest).1,
        (rxDispatch s m).2 ++ (rxRun (rxDispatch s m).1 rest).2) := by
  by_cases hm : m = 170
  · subst hm
    simp only [stuff, if_pos rfl, List.cons_append, List.nil_append]
    simp [rxRun, rxByte_escape_set s h, rxByte_escape_lit s h]
  · simp only [stuff, if_neg hm, List.cons_append, List.nil_append]
    simp [rxRun, rxByte_unescaped s m h hm]

theorem rxRun_stuff_one (s : RxState) (m : Nat) (h : s.isEscaped = false) :
    rxRun s (stuff m) = rxDispatch s m := by
  have hc := rxRun_stuff_cons s m [] h
  rw [List.append_nil] at hc
  rw [hc]
  simp [rxRun]

theorem foldl_add16 (l : List Nat) : ∀ (s : Nat), s < 65536 →
    l.foldl add16 s = (s + l.sum) % 65536 := by
  induction l with
  | nil => intro s hs; simp [Nat.mod_eq_of_lt hs]
  | cons b rest ih =>
      intro s hs
      have h1 : (s + b) % 65536 < 65536 := Nat.mod_lt _ (by norm_num)
      simp only [List.foldl_cons, List.sum_cons, add16]
      rw [ih _ h1, Nat.mod_add_mod]
      congr 1
      omega

theorem foldl_txAdd (l : List Nat) : ∀ (bs : List Nat) (s : Nat), s < 65536 →
    l.foldl txAdd (bs, s) = (bs ++ stuffAll l, (s + l.sum) % 65536) := by
  induction l with
  | nil =>
      intro bs s hs
      simp [stuffAll, Nat.mod_eq_of_lt hs]
  | cons b rest ih =>
      intro bs s hs
      have h1 : (s + b) % 65536 < 65536 := Nat.mod_lt _ (by norm_num)
      simp only [List.foldl_cons, txAdd, stuffAll, add16]
      rw [ih _ _ h1, Nat.mod_add_mod]
      simp only [List.append_assoc, Nat.add_assoc, List.sum_cons]

/-- `TXSendPacket` output, written as the start byte followed by the stuffed
header, stuffed scrambled payload and stuffed checksum. -/
theorem txSendPacket_eq (disable : Bool) (txSeed src dst : Nat)
    (payload : List Nat) (hlen : payload.length ≤ 254) :
    txSendPacket disable txSeed src dst payload =
      (let seed := if disable then 120 else txSeed
       let scrP := if disable then payload else scramble txSeed payload
       let csum := (src + dst + (payload.length + 1) + seed + scrP.sum) % 65536
       170 :: (stuff src ++ stuff dst ++ stuff (payload.length + 1) ++ stuff seed ++
         stuffAll scrP ++ stuff (csum % 256) ++ stuff (csum / 256 % 256))) := by
  have hln : (payload.length + 1) % 256 = payload.length + 1 :=
    Nat.mod_eq_of_lt (by omega)
  simp only [txSendPacket, txAdd]
  rw [foldl_txAdd]
  · simp only [add16, hln, Nat.zero_add, Nat.mod_add_mod, Nat.add_assoc,
      List.append_assoc, List.cons_append, List.nil_append]
  · exact Nat.mod_lt _ (by norm_num)

theorem scramble_take (seed : Nat) (p q : List Nat) :
    (scramble seed (p ++ q)).take p.length = scramble seed p :=
  scrambleFrom_take seed _ p q

/-- In `BODY` state, the stuffed encoding of a byte list that does not yet
complete the frame is absorbed into the payload buffer with no events. -/
theorem rxRun_body (bs : List Nat) : ∀ (s : RxState) (rest : List Nat),
    s.rxState = 4 → s.isEscaped = false →
    s.payload.length + bs.length < s.rxLen →
    rxRun s (stuffAll bs ++ rest) = rxRun { s with payload := s.payload ++ bs } rest := by
  induction bs with
  | nil =>
      intro s rest _ _ _
      have h : ({ s with payload := s.payload ++ [] } : RxState) = s := by
        cases s; simp
      simp [stuffAll, h]
  | cons b bs ih =>
      intro s rest h4 hesc hlt
      have hlt' : s.payload.length + 1 + bs.length < s.rxLen := by
        simp only [List.length_cons] at hlt
        omega
      have hd : rxDispatch s b = ({ s with payload := s.payload ++ [b] }, []) := by
        unfold rxDispatch
        rw [h4]
        dsimp only
        rw [if_neg (by
          simp only [List.length_append, List.length_cons, List.length_nil]
          omega)]
      have hstep := rxRun_stuff_cons s b (stuffAll bs ++ rest) hesc
      have hsplit : stuffAll (b :: bs) ++ rest = stuff b ++ (stuffAll bs ++ rest) := by
        simp [stuffAll]
      rw [hsplit, hstep, hd]
      have H := ih { s with payload := s.payload ++ [b] } rest h4 hesc
        (by simp only [List.length_append, List.length_cons, List.length_nil]; omega)
      rw [H]
      dsimp only
      have harg : (s.payload ++ [b]) ++ bs = s.payload ++ b :: bs := by simp
      rw [harg]
      simp

/-- Feeding one well-formed encoded frame into the receive machine from the
idle state delivers exactly one packet: `(src, dst, descramble(seed, scrP))`,
where `scrP` is the on-wire (scrambled) payload. -/
theorem rxRun_txFrame (src dst seed : Nat) (scrP : List Nat)
    (hsrcA : src ≠ 170) (hlen : scrP.length ≤ 254) :
    rxRun rxInit (170 :: (stuff src ++ stuff dst ++ stuff (scrP.length + 1) ++
        stuff seed ++ stuffAll scrP ++
        stuff ((src + dst + (scrP.length + 1) + seed + scrP.sum) % 65536 % 256) ++
        stuff ((src + dst + (scrP.length + 1) + seed + scrP.sum) % 65536 / 256 % 256))) =
      (⟨0, scrP.length + 1 + 2, src, dst,
          (src + dst + (scrP.length + 1) + seed + scrP.sum) % 65536,
          seed :: scramble seed (scrP ++
            [(src + dst + (scrP.length + 1) + seed + scrP.sum) % 65536 % 256,
             (src + dst + (scrP.length + 1) + seed + scrP.sum) % 65536 / 256 % 256]),
          false⟩,
        [Ev.packet src dst (scramble seed scrP)]) := by
  have hstuffsrc : stuff src = [src] := if_neg hsrcA
  set n := scrP.length with hn
  set csum := (src + dst + (n + 1) + seed + scrP.sum) % 65536 with hcsum
  have hcsumlt : csum < 65536 := Nat.mod_lt _ (by norm_num)
  -- start byte
  have h170 : rxByte rxInit 170 = (⟨0, 0, 0, 0, 0, [], true⟩, []) := rfl
  -- source byte: escaped, non-0xAA, so frame start + SRC dispatch
  have hsrc : rxByte ⟨0, 0, 0, 0, 0, [], true⟩ src =
      (⟨2, 0, src, 0, add16 0 src, [], false⟩, []) := by
    simp only [rxByte]
    rw [if_neg (by simp), if_pos hsrcA]
    rfl
  -- DST dispatch
  have hdst : rxDispatch ⟨2, 0, src, 0, add16 0 src, [], false⟩ dst =
      (⟨3, 0, src, dst, add16 (add16 0 src) dst, [], false⟩, []) := rfl
  -- LEN dispatch
  have hlen3 : rxDispatch ⟨3, 0, src, dst, add16 (add16 0 src) dst, [], false⟩ (n + 1) =
      (⟨4, n + 1 + 2, src, dst, add16 (add16 (add16 0 src) dst) (n + 1), [], false⟩, []) := by
    unfold rxDispatch
    dsimp only
    rw [if_pos (Nat.succ_pos n)]
  set S3 := add16 (add16 (add16 0 src) dst) (n + 1) with hS3
  have hS3lt : S3 < 65536 := Nat.mod_lt _ (by norm_num)
  -- seed byte enters the body buffer
  have hseed : rxDispatch ⟨4, n + 1 + 2, src, dst, S3, [], false⟩ seed =
      (⟨4, n + 1 + 2, src, dst, S3, [seed], false⟩, []) := by
    unfold rxDispatch
    dsimp only
    rw [if_neg (by
      simp only [List.nil_append, List.length_cons, List.length_nil]
      omega)]
    simp
  -- checksum low byte
  have hclo : rxDispatch ⟨4, n + 1 + 2, src, dst, S3, seed :: scrP, false⟩ (csum % 256) =
      (⟨4, n + 1 + 2, src, dst, S3, (seed :: scrP) ++ [csum % 256], false⟩, []) := by
    unfold rxDispatch
    dsimp only
    rw [if_neg (by
      simp only [List.length_append, List.length_cons, List.length_nil]
      omega)]
  -- checksum high byte completes the frame and emits the packet
  have hchi : rxDispatch
        ⟨4, n + 1 + 2, src, dst, S3, (seed :: scrP) ++ [csum % 256], false⟩
        (csum / 256 % 256) =
      (⟨0, n + 1 + 2, src, dst, csum,
          seed :: scramble seed (scrP ++ [csum % 256, csum / 256 % 256]), false⟩,
        [Ev.packet src dst (scramble seed scrP)]) := by
    unfold rxDispatch
    dsimp only
    have hp : ((seed :: scrP) ++ [csum % 256]) ++ [csum / 256 % 256] =
        (seed :: scrP) ++ [csum % 256, csum / 256 % 256] := by simp
    rw [hp]
    have hplen : ((seed :: scrP) ++ [csum % 256, csum / 256 % 256]).length = n + 1 + 2 := by
      simp [hn]
    rw [if_pos hplen]
    have htake : (((seed :: scrP) ++ [csum % 256, csum / 256 % 256]).take
        (((seed :: scrP) ++ [csum % 256, csum / 256 % 256]).length - 2)) = seed :: scrP := by
      rw [hplen]
      have : n + 1 + 2 - 2 = (seed :: scrP).length := by simp [hn]
      rw [this, List.take_left]
    rw [htake]
    have hfold : (seed :: scrP).foldl add16 S3 = csum := by
      rw [foldl_add16 _ _ hS3lt]
      simp only [hS3, add16, List.sum_cons, Nat.zero_add, Nat.mod_add_mod, hcsum]
      congr 1
      omega
    rw [hfold]
    have hgd2 : ((seed :: scrP) ++ [csum % 256, csum / 256 % 256]).getD
        (((seed :: scrP) ++ [csum % 256, csum / 256 % 256]).length - 2) 0 = csum % 256 := by
      rw [hplen]
      have h1 : n + 1 + 2 - 2 = (seed :: scrP).length := by simp [hn]
      rw [h1, List.getD_append_right _ _ _ _ (le_refl _)]
      simp
    have hgd1 : ((seed :: scrP) ++ [csum % 256, csum / 256 % 256]).getD
        (((seed :: scrP) ++ [csum % 256, csum / 256 % 256]).length - 1) 0 =
        csum / 256 % 256 := by
      rw [hplen]
      have h1 : n + 1 + 2 - 1 = (seed :: scrP).length + 1 := by simp [hn]
      rw [h1, List.getD_append_right _ _ _ _ (by simp)]
      simp
    rw [hgd2, hgd1]
    rw [if_pos (by omega)]
    have hgd0 : ((seed :: scrP) ++ [csum % 256, csum / 256 % 256]).getD 0 0 = seed := rfl
    have hdrop : ((seed :: scrP) ++ [csum % 256, csum / 256 % 256]).drop 1 =
        scrP ++ [csum % 256, csum / 256 % 256] := by simp
    rw [hgd0, hdrop, hplen]
    have h3 : n + 1 + 2 - 3 = scrP.length := by simp [hn]
    rw [h3, scramble_take]
  -- assemble the run
  simp only [rxRun, h170]
  rw [hstuffsrc]
  simp only [List.append_eq, List.cons_append, List.nil_append, List.append_assoc,
    rxRun, hsrc]
  rw [rxRun_stuff_cons _ _ _ rfl, hdst]
  rw [rxRun_stuff_cons _ _ _ rfl, hlen3]
  rw [rxRun_stuff_cons _ _ _ rfl, hseed]
  rw [rxRun_body scrP _ _ rfl rfl (by simp [hn]; omega)]
  have hpl : ([seed] ++ scrP : List Nat) = seed :: scrP := rfl
  simp only [hpl]
  rw [rxRun_stuff_cons _ _ _ rfl, hclo]
  rw [rxRun_stuff_one _ _ rfl, hchi]
  simp

theorem txSendPacket_eq_true (txSeed src dst : Nat) (payload : List Nat)
    (hlen : payload.length ≤ 254) :
    txSendPacket true txSeed src dst payload =
      170 :: (stuff src ++ stuff dst ++ stuff (payload.length + 1) ++ stuff 120 ++
        stuffAll payload ++
        stuff ((src + dst + (payload.length + 1) + 120 + payload.sum) % 65536 % 256) ++
        stuff ((src + dst + (payload.length + 1) + 120 + payload.sum) % 65536 / 256 % 256)) := by
  rw [txSendPacket_eq _ _ _ _ _ hlen]
  simp

theorem txSendPacket_eq_false (txSeed src dst : Nat) (payload : List Nat)
    (hlen : payload.length ≤ 254) :
    txSendPacket false txSeed src dst payload =
      170 :: (stuff src ++ stuff dst ++ stuff (payload.length + 1) ++ stuff txSeed ++
        stuffAll (scramble txSeed payload) ++
        stuff ((src + dst + (payload.length + 1) + txSeed +
          (scramble txSeed payload).sum) % 65536 % 256) ++
        stuff ((src + dst + (payload.length + 1) + txSeed +
          (scramble txSeed payload).sum) % 65536 / 256 % 256)) := by
  rw [txSendPacket_eq _ _ _ _ _ hlen]
  simp

end BattGo

namespace BattGo

/-- C1 (amended): for every source byte other than the escape byte `0xAA`,
every destination byte and every payload of length at most 254, feeding the
bytes emitted by `TXSendPacket` into the idle receive state machine invokes
the packet callback exactly once, with equal `(src, dst, payload)`, in both
scrambler-on and scrambler-off modes. -/
theorem c1_encode_decode_roundtrip (disable : Bool) (txSeed src dst : Nat)
    (payload : List Nat) (hsrc : src < 256) (hdst : dst < 256) (hseed : txSeed < 256)
    (hp : ∀ b ∈ payload, b < 256) (hlen : payload.length ≤ 254) (hsrcA : src ≠ 170) :
    (rxRun rxInit (txSendPacket disable txSeed src dst payload)).2 =
      [Ev.packet src dst payload] := by
  cases disable with
  | true =>
      rw [txSendPacket_eq_true _ _ _ _ hlen]
      have h := congrArg Prod.snd (rxRun_txFrame src dst 120 payload hsrcA hlen)
      simp only [scramble_seed120] at h
      exact h
  | false =>
      rw [txSendPacket_eq_false _ _ _ _ hlen]
      have hslen : (scramble txSeed payload).length = payload.length :=
        scrambleFrom_length _ _ _
      have h := congrArg Prod.snd
        (rxRun_txFrame src dst txSeed (scramble txSeed payload) hsrcA
          (by rw [hslen]; exact hlen))
      simp only [scramble_scramble] at h
      rw [hslen] at h
      exact h

/-- Witness for C1: concrete round trips in both modes
(`src=1, dst=2, payload=[0xAA, 0x01]`, matching the spec's Scenario A). -/
theorem c1_encode_decode_roundtrip_witness :
    ((1 : Nat) < 256 ∧ (2 : Nat) < 256 ∧ (5 : Nat) < 256 ∧
      (∀ b ∈ [170, 1], b < 256) ∧ ([170, 1] : List Nat).length ≤ 254 ∧ (1 : Nat) ≠ 170) ∧
    (rxRun rxInit (txSendPacket true 0 1 2 [170, 1])).2 = [Ev.packet 1 2 [170, 1]] ∧
    (rxRun rxInit (txSendPacket false 5 1 2 [170, 1])).2 = [Ev.packet 1 2 [170, 1]] :=
  ⟨by decide,
   c1_encode_decode_roundtrip true 0 1 2 [170, 1] (by decide) (by decide) (by decide)
     (by decide) (by decide) (by decide),
   c1_encode_decode_roundtrip false 5 1 2 [170, 1] (by decide) (by decide) (by decide)
     (by decide) (by decide) (by decide)⟩

/-- Counterexample to C1 as stated: with source address `0xAA` the stuffed
source byte defeats frame-start detection (a start is only recognised on an
escaped non-`0xAA` byte), so the receiver does not deliver the packet — it
sees only a presence byte. The claim's universal quantification over all
source addresses fails at `src = 0xAA, dst = 2, payload = []`. -/
theorem c1_counterexample_src_aa :
    (rxRun rxInit (txSendPacket true 0 170 2 [])).2 ≠ [Ev.packet 170 2 []] ∧
    (rxRun rxInit (txSendPacket true 0 170 2 [])).2 = [Ev.presence 170] := by
  decide

end BattGo

namespace BattGo

/-! ## C5: the checksum guard of the receive machine -/

/-- Relation between the checksum accumulator and the recorded frame header
fields, maintained by the receive machine: in `SRC` the sum is reset; in `DST`
it holds the source byte; in `LEN` source+dest; in `BODY` source+dest+LEN
(with `rxLen = LEN + 2`), the body buffer is not yet full and `rxLen ≥ 3`. -/
def SumInv (s : RxState) : Prop :=
  (s.rxState = 1 → s.sum = 0) ∧
  (s.rxState = 2 → s.sum = s.addrSource % 65536) ∧
  (s.rxState = 3 → s.sum = (s.addrSource + s.addrDest) % 65536) ∧
  (s.rxState = 4 → s.sum = (s.addrSource + s.addrDest + (s.rxLen - 2)) % 65536 ∧
    s.payload.length < s.rxLen ∧ 3 ≤ s.rxLen)

theorem sumInv_rxInit : SumInv rxInit := by
  refine ⟨?_, ?_, ?_, ?_⟩ <;> intro h <;> simp [rxInit] at h

theorem sumInv_dispatch (s : RxState) (m : Nat) (h : SumInv s) :
    SumInv (rxDispatch s m).1 := by
  obtain ⟨h1, h2, h3, h4⟩ := h
  unfold rxDispatch
  rcases hst : s.rxState with _ | _ | _ | _ | _ | k
  · exact ⟨h1, h2, h3, h4⟩
  · refine ⟨?_, ?_, ?_, ?_⟩ <;> intro hh <;> simp_all [add16]
  · refine ⟨?_, ?_, ?_, ?_⟩ <;> intro hh <;>
      simp_all [add16, Nat.mod_add_mod]
  · dsimp only
    split
    · refine ⟨?_, ?_, ?_, ?_⟩ <;> intro hh <;> simp_all [add16, Nat.mod_add_mod] <;> omega
    · refine ⟨?_, ?_, ?_, ?_⟩ <;> intro hh <;> simp_all
  · dsimp only
    split
    · split
      · refine ⟨?_, ?_, ?_, ?_⟩ <;> intro hh <;> simp_all
      · refine ⟨?_, ?_, ?_, ?_⟩ <;> intro hh <;> simp_all
    · refine ⟨?_, ?_, ?_, ?_⟩ <;> intro hh <;> simp_all <;> omega
  · refine ⟨?_, ?_, ?_, ?_⟩ <;> intro hh <;> simp_all

theorem sumInv_rxByte (s : RxState) (m : Nat) (h : SumInv s) :
    SumInv (rxByte s m).1 := by
  unfold rxByte
  split
  · split
    · obtain ⟨h1, h2, h3, h4⟩ := h
      exact ⟨h1, h2, h3, fun hh => h4 hh⟩
    · exact sumInv_dispatch s m h
  · split
    · refine sumInv_dispatch _ m ⟨?_, ?_, ?_, ?_⟩ <;> intro hh <;> simp_all
    · refine sumInv_dispatch _ m ?_
      obtain ⟨h1, h2, h3, h4⟩ := h
      exact ⟨h1, h2, h3, h4⟩

end BattGo

namespace BattGo

theorem sumInv_run (stream : List Nat) : ∀ (s : RxState), SumInv s →
    SumInv (rxRun s stream).1 := by
  induction stream with
  | nil => intro s h; exact h
  | cons m rest ih =>
      intro s h
      exact ih (rxByte s m).1 (sumInv_rxByte s m h)

/-- A byte that completes the frame (`BODY` state, buffer reaching `rxLen`)
with a matching trailing checksum word delivers exactly one packet — the
descrambled middle of the completed buffer — and returns to `IDLE`. -/
theorem rxDispatch_deliver (t : RxState) (m : Nat) (hst4 : t.rxState = 4)
    (hcomp : (t.payload ++ [m]).length = t.rxLen)
    (hck : (t.payload ++ [m]).getD ((t.payload ++ [m]).length - 2) 0 +
        256 * (t.payload ++ [m]).getD ((t.payload ++ [m]).length - 1) 0 =
      ((t.payload ++ [m]).take ((t.payload ++ [m]).length - 2)).foldl add16 t.sum) :
    (rxDispatch t m).2 =
      [Ev.packet t.addrSource t.addrDest
        ((scramble ((t.payload ++ [m]).getD 0 0)
          ((t.payload ++ [m]).drop 1)).take ((t.payload ++ [m]).length - 3))] ∧
    (rxDispatch t m).1.rxState = 0 := by
  unfold rxDispatch
  rw [hst4]
  dsimp only
  rw [if_pos hcomp, if_pos hck]
  exact ⟨rfl, rfl⟩

/-- A byte that completes the frame with a mismatching trailing checksum word
produces no event and returns to `IDLE`. -/
theorem rxDispatch_drop (t : RxState) (m : Nat) (hst4 : t.rxState = 4)
    (hcomp : (t.payload ++ [m]).length = t.rxLen)
    (hck : (t.payload ++ [m]).getD ((t.payload ++ [m]).length - 2) 0 +
        256 * (t.payload ++ [m]).getD ((t.payload ++ [m]).length - 1) 0 ≠
      ((t.payload ++ [m]).take ((t.payload ++ [m]).length - 2)).foldl add16 t.sum) :
    (rxDispatch t m).2 = [] ∧ (rxDispatch t m).1.rxState = 0 := by
  unfold rxDispatch
  rw [hst4]
  dsimp only
  rw [if_pos hcomp, if_neg hck]
  exact ⟨rfl, rfl⟩

/-- If the dispatch of byte `m` emits a packet, the machine was in `BODY`
state, `m` completed its actual buffer `t.payload ++ [m]` to exactly `rxLen`,
the trailing little-endian word of that buffer equals the wrapped sum of the
recorded `SRC`, `DST`, `LEN` and the body bytes before the checksum, the
delivered payload is the descrambled middle of that very buffer, and the
machine returns to `IDLE`. -/
theorem rxDispatch_packet_frame (t : RxState) (m : Nat) (src dst : Nat)
    (pl : List Nat) (hinvt : SumInv t)
    (hmemt : Ev.packet src dst pl ∈ (rxDispatch t m).2) :
    (rxDispatch t m).2 = [Ev.packet src dst pl] ∧
    src = t.addrSource ∧ dst = t.addrDest ∧
    t.rxState = 4 ∧ (t.payload ++ [m]).length = t.rxLen ∧
    (t.payload ++ [m]).getD ((t.payload ++ [m]).length - 2) 0 +
        256 * (t.payload ++ [m]).getD ((t.payload ++ [m]).length - 1) 0 =
      (src + dst + ((t.payload ++ [m]).length - 2) +
        ((t.payload ++ [m]).take ((t.payload ++ [m]).length - 2)).sum) % 65536 ∧
    pl = (scramble ((t.payload ++ [m]).getD 0 0)
        ((t.payload ++ [m]).drop 1)).take ((t.payload ++ [m]).length - 3) ∧
    (rxDispatch t m).1.rxState = 0 := by
  obtain ⟨h1, h2, h3, h4⟩ := hinvt
  have hmemt2 := hmemt
  unfold rxDispatch at hmemt2
  rcases hst : t.rxState with _ | _ | _ | _ | _ | k <;> rw [hst] at hmemt2 <;>
    dsimp only at hmemt2
  · simp at hmemt2
  · simp at hmemt2
  · simp at hmemt2
  · split at hmemt2 <;> simp at hmemt2
  · have hst4 : t.rxState = 4 := by rw [hst]
    obtain ⟨hsum, hplen, hrxlen⟩ := h4 hst4
    by_cases hcomp : (t.payload ++ [m]).length = t.rxLen
    · by_cases hck : (t.payload ++ [m]).getD ((t.payload ++ [m]).length - 2) 0 +
          256 * (t.payload ++ [m]).getD ((t.payload ++ [m]).length - 1) 0 =
          ((t.payload ++ [m]).take ((t.payload ++ [m]).length - 2)).foldl add16 t.sum
      · obtain ⟨hd1, hd2⟩ := rxDispatch_deliver t m hst4 hcomp hck
        rw [hd1] at hmemt
        simp only [List.mem_singleton, Ev.packet.injEq] at hmemt
        obtain ⟨hsrc, hdst, hpl⟩ := hmemt
        have hsumlt : t.sum < 65536 := by
          rw [hsum]
          exact Nat.mod_lt _ (by norm_num)
        refine ⟨?_, hsrc, hdst, rfl, hcomp, ?_, hpl, hd2⟩
        · rw [hd1, hsrc, hdst, hpl]
        · rw [hck, foldl_add16 _ _ hsumlt, hsum, Nat.mod_add_mod, hsrc, hdst, hcomp]
      · obtain ⟨hd1, _⟩ := rxDispatch_drop t m hst4 hcomp hck
        rw [hd1] at hmemt
        simp at hmemt
    · rw [if_neg hcomp] at hmemt2
      simp at hmemt2
  · simp at hmemt2

/-- Lift of `rxDispatch_packet_frame` through the escape logic: an emission
happens only when the byte actually reaches the `BODY` dispatch — either an
unescaped non-`0xAA` byte, or a stuffed literal `0xAA` — and all frame facts
hold of the machine state `s` itself. -/
theorem rxByte_packet_frame (s : RxState) (m : Nat) (src dst : Nat)
    (pl : List Nat) (hinv : SumInv s)
    (hmem : Ev.packet src dst pl ∈ (rxByte s m).2) :
    (rxByte s m).2 = [Ev.packet src dst pl] ∧
    ((s.isEscaped = false ∧ m ≠ 170) ∨ (s.isEscaped = true ∧ m = 170)) ∧
    src = s.addrSource ∧ dst = s.addrDest ∧
    s.rxState = 4 ∧ (s.payload ++ [m]).length = s.rxLen ∧
    (s.payload ++ [m]).getD ((s.payload ++ [m]).length - 2) 0 +
        256 * (s.payload ++ [m]).getD ((s.payload ++ [m]).length - 1) 0 =
      (src + dst + ((s.payload ++ [m]).length - 2) +
        ((s.payload ++ [m]).take ((s.payload ++ [m]).length - 2)).sum) % 65536 ∧
    pl = (scramble ((s.payload ++ [m]).getD 0 0)
        ((s.payload ++ [m]).drop 1)).take ((s.payload ++ [m]).length - 3) ∧
    (rxByte s m).1.rxState = 0 := by
  rcases hesc : s.isEscaped with _ | _
  · by_cases hm : m = 170
    · subst hm
      rw [rxByte_escape_set s hesc] at hmem
      simp at hmem
    · have hb : rxByte s m = rxDispatch s m := rxByte_unescaped s m hesc hm
      rw [hb] at hmem
      obtain ⟨e1, e2, e3, e4, e5, e6, e7, e8⟩ :=
        rxDispatch_packet_frame s m src dst pl hinv hmem
      rw [hb]
      exact ⟨e1, Or.inl ⟨rfl, hm⟩, e2, e3, e4, e5, e6, e7, e8⟩
  · by_cases hm : m = 170
    · subst hm
      have hb : rxByte s 170 = rxDispatch { s with isEscaped := false } 170 := by
        simp [rxByte, hesc]
      rw [hb] at hmem
      have hinv2 : SumInv { s with isEscaped := false } := by
        obtain ⟨h1, h2, h3, h4⟩ := hinv
        exact ⟨h1, h2, h3, h4⟩
      obtain ⟨e1, e2, e3, e4, e5, e6, e7, e8⟩ :=
        rxDispatch_packet_frame { s with isEscaped := false } 170 src dst pl hinv2 hmem
      rw [hb]
      exact ⟨e1, Or.inr ⟨rfl, rfl⟩, e2, e3, e4, e5, e6, e7, e8⟩
    · have hb : rxByte s m =
          rxDispatch { s with isEscaped := false, rxState := 1, sum := 0 } m := by
        simp [rxByte, hesc, hm]
      rw [hb] at hmem
      have hd : (rxDispatch { s with isEscaped := false, rxState := 1, sum := 0 } m).2
          = [] := rfl
      rw [hd] at hmem
      simp at hmem

/-- Every packet emitted while running a stream arises at a unique position:
the stream splits as `pre ++ m :: post` and the byte `m`, fed to the state
actually reached by `pre`, emits that packet. -/
theorem rxRun_packet_split : ∀ (stream pre : List Nat) (src dst : Nat)
    (pl : List Nat),
    Ev.packet src dst pl ∈ (rxRun (rxRun rxInit pre).1 stream).2 →
    ∃ (pre2 : List Nat) (m : Nat) (post : List Nat),
      pre ++ stream = pre2 ++ m :: post ∧
      Ev.packet src dst pl ∈ (rxByte (rxRun rxInit pre2).1 m).2 := by
  intro stream
  induction stream with
  | nil =>
      intro pre src dst pl hmem
      simp [rxRun] at hmem
  | cons m rest ih =>
      intro pre src dst pl hmem
      simp only [rxRun, List.mem_append] at hmem
      rcases hmem with hmem | hmem
      · exact ⟨pre, m, rest, rfl, hmem⟩
      · have hstate : (rxByte (rxRun rxInit pre).1 m).1 =
            (rxRun rxInit (pre ++ [m])).1 := by
          rw [rxRun_append]
          simp [rxRun]
        rw [hstate] at hmem
        obtain ⟨pre2, m2, post2, heq, hm2⟩ := ih (pre ++ [m]) src dst pl hmem
        refine ⟨pre2, m2, post2, ?_, hm2⟩
        rw [← heq]
        simp

end BattGo

namespace BattGo

/-- C5: for every byte stream fed to the receive machine from the idle state,
every invocation of the packet callback happens at an explicit position
`stream = pre ++ m :: post` where the machine state `s` actually reached by
`pre` is in `BODY` and the byte `m` completes the machine’s own buffer
`P = s.payload ++ [m]` with a trailing little-endian 16-bit word equal to the
wrapped sum of the recorded `SRC`, `DST`, `LEN = P.length - 2` and the
seed/payload bytes of `P` — so the callback is never invoked for a frame
whose checksum word mismatches; and whenever a byte completes the frame of
the actually reached state with a mismatching word (whether it arrives plain
or as a stuffed literal `0xAA`), the frame is silently dropped: no callback
and the machine returns to `IDLE` (state 0). -/
theorem c5_checksum_guard :
    (∀ (stream : List Nat) (src dst : Nat) (pl : List Nat),
        Ev.packet src dst pl ∈ (rxRun rxInit stream).2 →
        ∃ (pre : List Nat) (m : Nat) (post : List Nat) (s : RxState) (P : List Nat),
          stream = pre ++ m :: post ∧
          s = (rxRun rxInit pre).1 ∧
          P = s.payload ++ [m] ∧
          (rxByte s m).2 = [Ev.packet src dst pl] ∧
          src = s.addrSource ∧ dst = s.addrDest ∧
          s.rxState = 4 ∧ P.length = s.rxLen ∧
          P.getD (P.length - 2) 0 + 256 * P.getD (P.length - 1) 0 =
            (src + dst + (P.length - 2) + (P.take (P.length - 2)).sum) % 65536 ∧
          pl = (scramble (P.getD 0 0) (P.drop 1)).take (P.length - 3) ∧
          (rxByte s m).1.rxState = 0) ∧
    (∀ (pre : List Nat) (m : Nat) (s : RxState) (P : List Nat),
        s = (rxRun rxInit pre).1 →
        P = s.payload ++ [m] →
        ((s.isEscaped = false ∧ m ≠ 170) ∨ (s.isEscaped = true ∧ m = 170)) →
        s.rxState = 4 →
        P.length = s.rxLen →
        P.getD (P.length - 2) 0 + 256 * P.getD (P.length - 1) 0 ≠
          (P.take (P.length - 2)).foldl add16 s.sum →
        (rxByte s m).2 = [] ∧ (rxByte s m).1.rxState = 0) := by
  constructor
  · intro stream src dst pl hmem
    obtain ⟨pre, m, post, heq, hstep⟩ :=
      rxRun_packet_split stream [] src dst pl hmem
    have hinv : SumInv (rxRun rxInit pre).1 := sumInv_run pre rxInit sumInv_rxInit
    obtain ⟨e1, _, e3, e4, e5, e6, e7, e8, e9⟩ :=
      rxByte_packet_frame (rxRun rxInit pre).1 m src dst pl hinv hstep
    exact ⟨pre, m, post, (rxRun rxInit pre).1, (rxRun rxInit pre).1.payload ++ [m],
      by simpa using heq, rfl, rfl, e1, e3, e4, e5, e6, e7, e8, e9⟩
  · rintro pre m s P hs hP hdisp hst4 hcomp hck
    subst hs
    subst hP
    rcases hdisp with ⟨hesc, hm⟩ | ⟨hesc, hm⟩
    · rw [rxByte_unescaped _ _ hesc hm]
      exact rxDispatch_drop _ _ hst4 hcomp hck
    · subst hm
      have hb : rxByte (rxRun rxInit pre).1 170 =
          rxDispatch { (rxRun rxInit pre).1 with isEscaped := false } 170 := by
        simp [rxByte, hesc]
      rw [hb]
      exact rxDispatch_drop { (rxRun rxInit pre).1 with isEscaped := false } 170
        hst4 hcomp hck

/-- Witness for C5: the valid frame `AA 01 02 01 78 7C 00` delivers a packet
located at a concrete split with a matching checksum of the machine’s own
buffer; and after the prefix `AA 01 02 01 07 09` (state
`⟨4, 3, 1, 2, 4, [7, 9], false⟩`), the completing byte `0` carries a wrong
trailing word (`9 + 256·0 ≠ 11`): no callback, back to `IDLE`. -/
theorem c5_checksum_guard_witness :
    (∃ (pre : List Nat) (m : Nat) (post : List Nat) (s : RxState) (P : List Nat),
      [170, 1, 2, 1, 120, 124, 0] = pre ++ m :: post ∧
      s = (rxRun rxInit pre).1 ∧
      P = s.payload ++ [m] ∧
      (rxByte s m).2 = [Ev.packet 1 2 []] ∧
      (1 : Nat) = s.addrSource ∧ (2 : Nat) = s.addrDest ∧
      s.rxState = 4 ∧ P.length = s.rxLen ∧
      P.getD (P.length - 2) 0 + 256 * P.getD (P.length - 1) 0 =
        (1 + 2 + (P.length - 2) + (P.take (P.length - 2)).sum) % 65536 ∧
      ([] : List Nat) = (scramble (P.getD 0 0) (P.drop 1)).take (P.length - 3) ∧
      (rxByte s m).1.rxState = 0) ∧
    (((⟨4, 3, 1, 2, 4, [7, 9], false⟩ : RxState) = (rxRun rxInit [170, 1, 2, 1, 7, 9]).1 ∧
      ([7, 9, 0] : List Nat) = (⟨4, 3, 1, 2, 4, [7, 9], false⟩ : RxState).payload ++ [0] ∧
      (((⟨4, 3, 1, 2, 4, [7, 9], false⟩ : RxState).isEscaped = false ∧ (0 : Nat) ≠ 170) ∨
        ((⟨4, 3, 1, 2, 4, [7, 9], false⟩ : RxState).isEscaped = true ∧ (0 : Nat) = 170)) ∧
      (⟨4, 3, 1, 2, 4, [7, 9], false⟩ : RxState).rxState = 4 ∧
      ([7, 9, 0] : List Nat).length = (⟨4, 3, 1, 2, 4, [7, 9], false⟩ : RxState).rxLen ∧
      ([7, 9, 0] : List Nat).getD (([7, 9, 0] : List Nat).length - 2) 0 +
          256 * ([7, 9, 0] : List Nat).getD (([7, 9, 0] : List Nat).length - 1) 0 ≠
        (([7, 9, 0] : List Nat).take (([7, 9, 0] : List Nat).length - 2)).foldl add16
          (⟨4, 3, 1, 2, 4, [7, 9], false⟩ : RxState).sum) ∧
     ((rxByte ⟨4, 3, 1, 2, 4, [7, 9], false⟩ 0).2 = [] ∧
      (rxByte ⟨4, 3, 1, 2, 4, [7, 9], false⟩ 0).1.rxState = 0)) :=
  ⟨c5_checksum_guard.1 [170, 1, 2, 1, 120, 124, 0] 1 2 [] (by decide),
   ⟨by decide, by decide, by decide, by decide, by decide, by decide⟩,
   c5_checksum_guard.2 [170, 1, 2, 1, 7, 9] 0 ⟨4, 3, 1, 2, 4, [7, 9], false⟩ [7, 9, 0]
     (by decide) (by decide) (by decide) (by decide) (by decide) (by decide)⟩

end BattGo

namespace BattGo

/-! ## Controller address allocator (`controller.go`)

The `[4]uint64` used-address bitmap is a list of four words; `addressSetUsed`
and `addressFindFree` mirror the Go functions (`&^` is and-not on `uint64`;
the find loop scans `i = 0..253` and claims the first clear bit). -/

/-- Bit `addr` of the used-address bitmap: word `addr/64`, bit `addr%64`. -/
def addrBit (w : List Nat) (addr : Nat) : Bool :=
  (w.getD (addr / 64) 0).testBit (addr % 64)

/-- `addressSetUsed`: set or clear one bit (`|= mask` / `&= ^mask`). -/
def addressSetUsed (w : List Nat) (addr : Nat) (used : Bool) : List Nat :=
  let mask := (1 : Nat) <<< (addr % 64)
  if used then w.set (addr / 64) (w.getD (addr / 64) 0 ||| mask)
  else w.set (addr / 64) (w.getD (addr / 64) 0 &&& ((2 ^ 64 - 1) ^^^ mask))

/-- The scan loop of `addressFindFree` (`for i := 0; i < 254; i++`), with the
remaining iteration count made explicit. -/
def addressFindFreeLoop (w : List Nat) : Nat → Nat → Option Nat
  | 0, _ => none
  | fuel + 1, i =>
      if i < 254 then
        if addrBit w i = false then some i
        else addressFindFreeLoop w fuel (i + 1)
      else none

/-- `addressFindFree`: lowest clear bit below 254, marking it used. -/
def addressFindFree (w : List Nat) : Option (Nat × List Nat) :=
  (addressFindFreeLoop w 254 0).map (fun a => (a, addressSetUsed w a true))

/-- The bitmap of a freshly constructed controller (`New` marks `0x00`
broadcast, `0x01` controller and `0xAA` escape as used). -/
def allocInit : List Nat :=
  addressSetUsed (addressSetUsed (addressSetUsed [0, 0, 0, 0] 0 true) 1 true) 170 true

/-- One allocator action: an allocation, or the controller freeing the
address of a reaped device (`addressSetUsed(dev.address, false)`). -/
inductive AllocOp
  | alloc
  | free (a : Nat)
  deriving DecidableEq, Repr

/-- Apply one action to (bitmap, currently-held addresses). A `free` only
acts on a held address, as in `Run` where exactly the reaped device's own
address is freed. -/
def stepAlloc (st : List Nat × List Nat) : AllocOp → List Nat × List Nat
  | AllocOp.alloc =>
      match addressFindFree st.1 with
      | some (a, w') => (w', st.2 ++ [a])
      | none => st
  | AllocOp.free a =>
      if a ∈ st.2 then (addressSetUsed st.1 a false, st.2.erase a) else st

/-- Run a sequence of allocator actions. -/
def runAlloc (st : List Nat × List Nat) : List AllocOp → List Nat × List Nat
  | [] => st
  | op :: rest => runAlloc (stepAlloc st op) rest

theorem length_addressSetUsed (w : List Nat) (a : Nat) (u : Bool) :
    (addressSetUsed w a u).length = w.length := by
  unfold addressSetUsed
  split <;> simp

/-- Setting or clearing bit `a` changes exactly bit `a` (on a 4-word map
indexed by 8-bit addresses). -/
theorem addrBit_setUsed (w : List Nat) (a b : Nat) (u : Bool)
    (hw : w.length = 4) (ha : a < 256) (hb : b < 256) :
    addrBit (addressSetUsed w a u) b = if b = a then u else addrBit w b := by
  unfold addrBit addressSetUsed
  have hmask : (1 : Nat) <<< (a % 64) = 2 ^ (a % 64) := by
    rw [Nat.shiftLeft_eq, Nat.one_mul]
  have hlen : a / 64 < w.length := by omega
  by_cases hidx : b / 64 = a / 64
  · have hget : ∀ v, ((w.set (a / 64) v).getD (b / 64) 0) = v := by
      intro v
      rw [hidx]
      simp [List.getD_eq_getElem?_getD, List.getElem?_set_self', hlen]
    cases u with
      | true =>
          dsimp only
          rw [if_pos rfl, hget, hmask, Nat.testBit_lor]
          by_cases hbit : b % 64 = a % 64
          · have hab : b = a := by omega
            rw [hbit, Nat.testBit_two_pow_self]
            simp [hab]
          · rw [Nat.testBit_two_pow_of_ne (fun hh => hbit hh.symm)]
            have hab : b ≠ a := by omega
            simp [hab, hidx]
      | false =>
          dsimp only
          rw [if_neg (by simp), hget, hmask, Nat.testBit_land, Nat.testBit_xor]
          have hone : ((2 : Nat) ^ 64 - 1).testBit (b % 64) = true := by
            rw [Nat.testBit_two_pow_sub_one]
            simp only [decide_eq_true_eq]
            omega
          rw [hone]
          by_cases hbit : b % 64 = a % 64
          · have hab : b = a := by omega
            rw [hbit, Nat.testBit_two_pow_self]
            simp [hab]
          · rw [Nat.testBit_two_pow_of_ne (fun hh => hbit hh.symm)]
            have hab : b ≠ a := by omega
            simp [hab, hidx]
  · have hab : b ≠ a := by omega
    have hget : ∀ v, ((w.set (a / 64) v).getD (b / 64) 0) = w.getD (b / 64) 0 := by
      intro v
      simp [List.getD_eq_getElem?_getD, List.getElem?_set_ne (fun hh => hidx hh.symm)]
    split <;> simp_all [hget]

end BattGo

namespace BattGo

theorem addressFindFreeLoop_spec : ∀ (fuel i : Nat) (w : List Nat), fuel + i = 254 →
    (∀ a, addressFindFreeLoop w fuel i = some a →
       i ≤ a ∧ a < 254 ∧ addrBit w a = false ∧
       ∀ b, i ≤ b → b < a → addrBit w b = true) ∧
    (addressFindFreeLoop w fuel i = none →
       ∀ b, i ≤ b → b < 254 → addrBit w b = true) := by
  intro fuel
  induction fuel with
  | zero =>
      intro i w hfi
      constructor
      · intro a ha
        simp [addressFindFreeLoop] at ha
      · intro _ b hb1 hb2
        omega
  | succ fuel ih =>
      intro i w hfi
      have hi : i < 254 := by omega
      constructor
      · intro a ha
        rw [addressFindFreeLoop, if_pos hi] at ha
        by_cases hbit : addrBit w i = false
        · rw [if_pos hbit] at ha
          obtain rfl : i = a := by injection ha
          exact ⟨le_refl _, hi, hbit, fun b hb1 hb2 => absurd (lt_of_le_of_lt hb1 hb2) (lt_irrefl _)⟩
        · rw [if_neg hbit] at ha
          obtain ⟨ha1, ha2, ha3, ha4⟩ := (ih (i + 1) w (by omega)).1 a ha
          refine ⟨by omega, ha2, ha3, ?_⟩
          intro b hb1 hb2
          rcases Nat.eq_or_lt_of_le hb1 with hb | hb
          · rw [← hb]
            exact Bool.eq_true_of_ne_false hbit
          · exact ha4 b (by omega) hb2
      · intro ha b hb1 hb2
        rw [addressFindFreeLoop, if_pos hi] at ha
        by_cases hbit : addrBit w i = false
        · rw [if_pos hbit] at ha
          exact absurd ha (by simp)
        · rw [if_neg hbit] at ha
          rcases Nat.eq_or_lt_of_le hb1 with hb | hb
          · rw [← hb]
            exact Bool.eq_true_of_ne_false hbit
          · exact (ih (i + 1) w (by omega)).2 ha b (by omega) hb2

theorem addressFindFree_some (w : List Nat) (a : Nat) (w' : List Nat)
    (h : addressFindFree w = some (a, w')) :
    a < 254 ∧ addrBit w a = false ∧ (∀ b, b < a → addrBit w b = true) ∧
      w' = addressSetUsed w a true := by
  unfold addressFindFree at h
  rcases hl : addressFindFreeLoop w 254 0 with _ | a'
  · rw [hl] at h
    exact Option.noConfusion h
  · rw [hl] at h
    have hinj : (a', addressSetUsed w a' true) = (a, w') := Option.some.inj h
    obtain ⟨rfl, rfl⟩ : a' = a ∧ addressSetUsed w a' true = w' :=
      ⟨congrArg Prod.fst hinj, congrArg Prod.snd hinj⟩
    obtain ⟨_, h2, h3, h4⟩ := (addressFindFreeLoop_spec 254 0 w rfl).1 a' hl
    exact ⟨h2, h3, fun b hb => h4 b (Nat.zero_le _) hb, rfl⟩

theorem addressFindFree_none (w : List Nat) (h : addressFindFree w = none) :
    ∀ b, b < 254 → addrBit w b = true := by
  unfold addressFindFree at h
  rcases hl : addressFindFreeLoop w 254 0 with _ | a'
  · exact fun b hb => (addressFindFreeLoop_spec 254 0 w rfl).2 hl b (Nat.zero_le _) hb
  · rw [hl] at h
    exact Option.noConfusion h

/-- Invariant of the allocator state: a 4-word bitmap with the three reserved
addresses marked used, and a non-reserved address marked used exactly when it
is currently held; held addresses are distinct and in `0x02..0xFD`. -/
def AllocInv (st : List Nat × List Nat) : Prop :=
  st.1.length = 4 ∧
  addrBit st.1 0 = true ∧ addrBit st.1 1 = true ∧ addrBit st.1 170 = true ∧
  (∀ b, b < 256 → b ≠ 0 → b ≠ 1 → b ≠ 170 → (addrBit st.1 b = true ↔ b ∈ st.2)) ∧
  (∀ a ∈ st.2, 2 ≤ a ∧ a < 254 ∧ a ≠ 170) ∧
  st.2.Nodup

end BattGo

namespace BattGo

set_option maxRecDepth 8192 in
theorem allocInv_init : AllocInv (allocInit, []) := by
  refine ⟨by decide, by decide, by decide, by decide, ?_, by simp, List.nodup_nil⟩
  intro b hb hb0 hb1 hbA
  simp only [List.not_mem_nil, iff_false]
  revert hb0 hb1 hbA
  revert b
  decide

theorem allocInv_step (st : List Nat × List Nat) (op : AllocOp) (h : AllocInv st) :
    AllocInv (stepAlloc st op) := by
  obtain ⟨hw, hb0, hb1, hbA, hiff, hrange, hnd⟩ := h
  cases op with
  | alloc =>
      rcases hf : addressFindFree st.1 with _ | ⟨a, w'⟩
      · simp only [stepAlloc, hf]
        exact ⟨hw, hb0, hb1, hbA, hiff, hrange, hnd⟩
      · obtain ⟨ha254, habit, hlow, rfl⟩ := addressFindFree_some _ _ _ hf
        have ha256 : a < 256 := by omega
        have ha0 : a ≠ 0 := fun hh => by rw [hh] at habit; rw [hb0] at habit; cases habit
        have ha1 : a ≠ 1 := fun hh => by rw [hh] at habit; rw [hb1] at habit; cases habit
        have haA : a ≠ 170 := fun hh => by rw [hh] at habit; rw [hbA] at habit; cases habit
        have hnotin : a ∉ st.2 := fun hin => by
          have := (hiff a ha256 ha0 ha1 haA).mpr hin
          rw [habit] at this
          cases this
        simp only [stepAlloc, hf]
        refine ⟨?_, ?_, ?_, ?_, ?_, ?_, ?_⟩
        · rw [length_addressSetUsed]; exact hw
        · rw [addrBit_setUsed _ _ _ _ hw ha256 (by norm_num),
            if_neg (fun hh => ha0 hh.symm)]; exact hb0
        · rw [addrBit_setUsed _ _ _ _ hw ha256 (by norm_num),
            if_neg (fun hh => ha1 hh.symm)]; exact hb1
        · rw [addrBit_setUsed _ _ _ _ hw ha256 (by norm_num),
            if_neg (fun hh => haA hh.symm)]; exact hbA
        · intro b hb hbb0 hbb1 hbbA
          rw [addrBit_setUsed _ _ _ _ hw ha256 hb]
          by_cases hba : b = a
          · subst hba
            simp [hnotin]
          · rw [if_neg hba]
            rw [hiff b hb hbb0 hbb1 hbbA]
            simp [hba]
        · intro x hx
          rcases List.mem_append.mp hx with hx | hx
          · exact hrange x hx
          · obtain rfl : x = a := by simpa using hx
            exact ⟨by omega, ha254, haA⟩
        · rw [List.nodup_append]
          refine ⟨hnd, List.nodup_singleton a, ?_⟩
          intro x hx hxa
          obtain rfl : x = a := by simpa using hxa
          exact hnotin hx
  | free a =>
      by_cases hm : a ∈ st.2
      · obtain ⟨ha2, ha254, haA⟩ := hrange a hm
        have ha256 : a < 256 := by omega
        simp only [stepAlloc, if_pos hm]
        refine ⟨?_, ?_, ?_, ?_, ?_, ?_, ?_⟩
        · rw [length_addressSetUsed]; exact hw
        · rw [addrBit_setUsed _ _ _ _ hw ha256 (by norm_num),
            if_neg (by omega)]; exact hb0
        · rw [addrBit_setUsed _ _ _ _ hw ha256 (by norm_num),
            if_neg (by omega)]; exact hb1
        · rw [addrBit_setUsed _ _ _ _ hw ha256 (by norm_num),
            if_neg (fun hh => haA hh.symm)]; exact hbA
        · intro b hb hbb0 hbb1 hbbA
          rw [addrBit_setUsed _ _ _ _ hw ha256 hb]
          by_cases hba : b = a
          · subst hba
            simp [hnd.mem_erase_iff]
          · rw [if_neg hba, hiff b hb hbb0 hbb1 hbbA, hnd.mem_erase_iff]
            simp [hba]
        · exact fun x hx => hrange x (List.mem_of_mem_erase hx)
        · exact hnd.erase a
      · simp only [stepAlloc, if_neg hm]
        exact ⟨hw, hb0, hb1, hbA, hiff, hrange, hnd⟩

theorem allocInv_run (ops : List AllocOp) : ∀ (st : List Nat × List Nat),
    AllocInv st → AllocInv (runAlloc st ops) := by
  induction ops with
  | nil => intro st h; exact h
  | cons op rest ih => intro st h; exact ih _ (allocInv_step st op h)

end BattGo

namespace BattGo

/-- C7: for every sequence of allocations and frees (of held addresses)
starting from a freshly constructed controller, a successful
`addressFindFree` returns the lowest address whose bitmap bit is clear and
sets that bit; the returned address is in `0x02..0xFD`, is not `0xAA`, and is
not currently held (no repeats until freed); the call fails exactly when
every address in the scanned range `0..253` is marked used. -/
theorem c7_address_allocator (ops : List AllocOp) (a : Nat) (w' : List Nat) :
    (addressFindFree (runAlloc (allocInit, []) ops).1 = some (a, w') →
      2 ≤ a ∧ a ≤ 253 ∧ a ≠ 170 ∧
      addrBit (runAlloc (allocInit, []) ops).1 a = false ∧
      (∀ b, b < a → addrBit (runAlloc (allocInit, []) ops).1 b = true) ∧
      a ∉ (runAlloc (allocInit, []) ops).2 ∧
      w' = addressSetUsed (runAlloc (allocInit, []) ops).1 a true) ∧
    (addressFindFree (runAlloc (allocInit, []) ops).1 = none →
      ∀ b, b < 254 → addrBit (runAlloc (allocInit, []) ops).1 b = true) := by
  obtain ⟨hw, hb0, hb1, hbA, hiff, hrange, hnd⟩ :=
    allocInv_run ops (allocInit, []) allocInv_init
  constructor
  · intro h
    obtain ⟨ha254, habit, hlow, rfl⟩ := addressFindFree_some _ _ _ h
    have ha0 : a ≠ 0 := fun hh => by rw [hh] at habit; rw [hb0] at habit; cases habit
    have ha1 : a ≠ 1 := fun hh => by rw [hh] at habit; rw [hb1] at habit; cases habit
    have haA : a ≠ 170 := fun hh => by rw [hh] at habit; rw [hbA] at habit; cases habit
    have hnotin : a ∉ (runAlloc (allocInit, []) ops).2 := fun hin => by
      have := (hiff a (by omega) ha0 ha1 haA).mpr hin
      rw [habit] at this
      cases this
    exact ⟨by omega, by omega, haA, habit, hlow, hnotin, rfl⟩
  · intro h
    exact addressFindFree_none _ h

/-- Witness for C7: after one allocation (which returns `0x02`), the next
`addressFindFree` returns `0x03`, which is free, above all used addresses,
not held, and gets marked used. -/
theorem c7_address_allocator_witness :
    (addressFindFree (runAlloc (allocInit, []) [AllocOp.alloc]).1 =
      some (3, [15, 0, 4398046511104, 0])) ∧
    (2 ≤ 3 ∧ 3 ≤ 253 ∧ (3 : Nat) ≠ 170 ∧
      addrBit (runAlloc (allocInit, []) [AllocOp.alloc]).1 3 = false ∧
      (∀ b, b < 3 → addrBit (runAlloc (allocInit, []) [AllocOp.alloc]).1 b = true) ∧
      (3 : Nat) ∉ (runAlloc (allocInit, []) [AllocOp.alloc]).2 ∧
      [15, 0, 4398046511104, 0] =
        addressSetUsed (runAlloc (allocInit, []) [AllocOp.alloc]).1 3 true) :=
  ⟨by decide,
   (c7_address_allocator [AllocOp.alloc] 3 [15, 0, 4398046511104, 0]).1 (by decide)⟩

end BattGo

namespace BattGo

/-! ## Controller device table (`controller.go` `Run`, `detect.go`
`detectAndConfigure`)

Abstract transition system over the controller state that the polling loop
mutates: the used-address bitmap and the device table. `detectNew` models a
`PING-ALL` response introducing a fresh serial (the device is inserted with
the address returned by `addressFindFree`, and is closed immediately when the
assignment acknowledgement is bad); `close` models `dev.close()` (assignment
failure or `Access` returning inactive); `reap` models the reaping pass in
`Run`: `Disconnected` is invoked, the address bit is cleared with
`addressSetUsed(dev.address, false)` and the entry is deleted. -/

/-- A `BusDevice` as far as the table/bitmap bookkeeping is concerned. -/
structure BusDev where
  serial : List Nat
  address : Nat
  closed : Bool
  deriving DecidableEq, Repr

/-- Controller bookkeeping state: used-address bitmap and device table. -/
structure CtrlState where
  addressUsed : List Nat
  devices : List BusDev
  deriving DecidableEq, Repr

/-- State after `New`: reserved addresses marked, empty table. -/
def ctrlInit : CtrlState := ⟨allocInit, []⟩

/-- One controller bookkeeping transition. -/
inductive CtrlStep : CtrlState → CtrlState → Prop
  | detectNew (st : CtrlState) (serial : List Nat) (assignOk : Bool) (a : Nat)
      (w' : List Nat) :
      serial ∉ st.devices.map BusDev.serial →
      addressFindFree st.addressUsed = some (a, w') →
      CtrlStep st ⟨w', st.devices ++ [⟨serial, a, !assignOk⟩]⟩
  | close (st : CtrlState) (d : BusDev) :
      d ∈ st.devices →
      CtrlStep st ⟨st.addressUsed,
        st.devices.map (fun x => if x = d then { x with closed := true } else x)⟩
  | reap (st : CtrlState) (d : BusDev) :
      d ∈ st.devices → d.closed = true →
      CtrlStep st ⟨addressSetUsed st.addressUsed d.address false, st.devices.erase d⟩

/-- States reachable from construction through enumeration, polling and
reaping. -/
inductive CtrlReach : CtrlState → Prop
  | init : CtrlReach ctrlInit
  | step {st st' : CtrlState} : CtrlReach st → CtrlStep st st' → CtrlReach st'

/-- Controller bookkeeping invariant: 4-word bitmap, reserved addresses
marked used, a non-reserved address marked used exactly when a device in the
table holds it, device addresses in range and pairwise distinct. -/
def CtrlInv (st : CtrlState) : Prop :=
  st.addressUsed.length = 4 ∧
  addrBit st.addressUsed 0 = true ∧ addrBit st.addressUsed 1 = true ∧
  addrBit st.addressUsed 170 = true ∧
  (∀ b, b < 256 → b ≠ 0 → b ≠ 1 → b ≠ 170 →
    (addrBit st.addressUsed b = true ↔ ∃ d ∈ st.devices, d.address = b)) ∧
  (∀ d ∈ st.devices, 2 ≤ d.address ∧ d.address < 254 ∧ d.address ≠ 170) ∧
  (st.devices.map BusDev.address).Nodup

set_option maxRecDepth 8192 in
theorem ctrlInv_init : CtrlInv ctrlInit := by
  refine ⟨by decide, by decide, by decide, by decide, ?_,
    by intro d hd; exact absurd hd (List.not_mem_nil d), by simp [ctrlInit]⟩
  intro b hb hb0 hb1 hbA
  simp only [ctrlInit, List.not_mem_nil, false_and, exists_false, iff_false]
  revert hb0 hb1 hbA
  revert b
  decide

end BattGo

namespace BattGo

theorem ctrlInv_step {st st' : CtrlState} (h : CtrlInv st) (hs : CtrlStep st st') :
    CtrlInv st' := by
  obtain ⟨hw, hb0, hb1, hbA, hiff, hrange, hnd⟩ := h
  cases hs with
  | detectNew serial assignOk a w' hser hf =>
      obtain ⟨ha254, habit, hlow, rfl⟩ := addressFindFree_some _ _ _ hf
      have ha256 : a < 256 := by omega
      have ha0 : a ≠ 0 := fun hh => by rw [hh] at habit; rw [hb0] at habit; cases habit
      have ha1 : a ≠ 1 := fun hh => by rw [hh] at habit; rw [hb1] at habit; cases habit
      have haA : a ≠ 170 := fun hh => by rw [hh] at habit; rw [hbA] at habit; cases habit
      have hnotin : ∀ d ∈ st.devices, d.address ≠ a := by
        intro d hd hda
        have := (hiff a ha256 ha0 ha1 haA).mpr ⟨d, hd, hda⟩
        rw [habit] at this
        cases this
      refine ⟨?_, ?_, ?_, ?_, ?_, ?_, ?_⟩
      · rw [length_addressSetUsed]; exact hw
      · rw [addrBit_setUsed _ _ _ _ hw ha256 (by norm_num),
          if_neg (fun hh => ha0 hh.symm)]; exact hb0
      · rw [addrBit_setUsed _ _ _ _ hw ha256 (by norm_num),
          if_neg (fun hh => ha1 hh.symm)]; exact hb1
      · rw [addrBit_setUsed _ _ _ _ hw ha256 (by norm_num),
          if_neg (fun hh => haA hh.symm)]; exact hbA
      · intro b hb hbb0 hbb1 hbbA
        rw [addrBit_setUsed _ _ _ _ hw ha256 hb]
        by_cases hba : b = a
        · subst hba
          rw [if_pos rfl]
          refine ⟨fun _ => ⟨⟨serial, b, !assignOk⟩, by simp, rfl⟩, fun _ => rfl⟩
        · rw [if_neg hba, hiff b hb hbb0 hbb1 hbbA]
          constructor
          · rintro ⟨d, hd, rfl⟩
            exact ⟨d, by simp [hd], rfl⟩
          · rintro ⟨d, hd, rfl⟩
            rcases List.mem_append.mp hd with hd | hd
            · exact ⟨d, hd, rfl⟩
            · obtain rfl : d = ⟨serial, a, !assignOk⟩ := by simpa using hd
              exact absurd rfl hba
      · intro d hd
        rcases List.mem_append.mp hd with hd | hd
        · exact hrange d hd
        · obtain rfl : d = ⟨serial, a, !assignOk⟩ := by simpa using hd
          exact ⟨(by omega : 2 ≤ a), ha254, haA⟩
      · rw [List.map_append, List.nodup_append]
        refine ⟨hnd, by simp, ?_⟩
        intro x hx hxa
        obtain rfl : x = a := by simpa using hxa
        obtain ⟨d, hd, hda⟩ := List.mem_map.mp hx
        exact hnotin d hd hda
  | close d hd =>
      have haddr : ∀ x : BusDev,
          ((fun x => if x = d then { x with closed := true } else x) x).address =
            x.address := by
        intro x
        show (if x = d then ({ x with closed := true } : BusDev) else x).address = x.address
        split <;> rfl
      refine ⟨hw, hb0, hb1, hbA, ?_, ?_, ?_⟩
      · intro b hb hbb0 hbb1 hbbA
        rw [hiff b hb hbb0 hbb1 hbbA]
        constructor
        · rintro ⟨x, hx, rfl⟩
          exact ⟨_, List.mem_map_of_mem _ hx, haddr x⟩
        · rintro ⟨x, hx, rfl⟩
          obtain ⟨y, hy, rfl⟩ := List.mem_map.mp hx
          exact ⟨y, hy, (haddr y).symm⟩
      · intro x hx
        obtain ⟨y, hy, rfl⟩ := List.mem_map.mp hx
        rw [haddr y]
        exact hrange y hy
      · rw [List.map_map]
        have : (BusDev.address ∘ fun x => if x = d then { x with closed := true } else x) =
            BusDev.address := by
          funext x
          exact haddr x
        rw [this]
        exact hnd
  | reap d hd hc =>
      obtain ⟨hd2, hd254, hdA⟩ := hrange d hd
      have hd256 : d.address < 256 := by omega
      have hdev_nd : st.devices.Nodup := hnd.of_map
      refine ⟨?_, ?_, ?_, ?_, ?_, ?_, ?_⟩
      · rw [length_addressSetUsed]; exact hw
      · rw [addrBit_setUsed _ _ _ _ hw hd256 (by norm_num),
          if_neg (by omega)]; exact hb0
      · rw [addrBit_setUsed _ _ _ _ hw hd256 (by norm_num),
          if_neg (by omega)]; exact hb1
      · rw [addrBit_setUsed _ _ _ _ hw hd256 (by norm_num),
          if_neg (fun hh => hdA hh.symm)]; exact hbA
      · intro b hb hbb0 hbb1 hbbA
        rw [addrBit_setUsed _ _ _ _ hw hd256 hb]
        by_cases hba : b = d.address
        · subst hba
          rw [if_pos rfl]
          simp only [Bool.false_eq_true, false_iff]
          rintro ⟨x, hx, hxa⟩
          have hxdev : x ∈ st.devices := List.mem_of_mem_erase hx
          have hxd : x = d := List.inj_on_of_nodup_map hnd hxdev hd hxa
          subst hxd
          rw [hdev_nd.mem_erase_iff] at hx
          exact absurd rfl hx.1
        · rw [if_neg hba, hiff b hb hbb0 hbb1 hbbA]
          constructor
          · rintro ⟨x, hx, rfl⟩
            refine ⟨x, ?_, rfl⟩
            rw [hdev_nd.mem_erase_iff]
            exact ⟨fun hh => hba (hh ▸ rfl), hx⟩
          · rintro ⟨x, hx, rfl⟩
            exact ⟨x, List.mem_of_mem_erase hx, rfl⟩
      · intro x hx
        exact hrange x (List.mem_of_mem_erase hx)
      · exact ((st.devices.erase_sublist d).map BusDev.address).nodup hnd

end BattGo

namespace BattGo

theorem ctrlInv_reach (st : CtrlState) (h : CtrlReach st) : CtrlInv st := by
  induction h with
  | init => exact ctrlInv_init
  | step _ hs ih => exact ctrlInv_step ih hs

/-- C8: in every controller state reachable from construction through
enumeration, polling and reaping, the reserved addresses `0x00`, `0x01` and
`0xAA` are marked used in the bitmap, and a non-reserved address is marked
used iff some device in the table holds it (so a closed device keeps its
address marked used until the reap transition, which clears the bit as it
removes the entry and invokes `Disconnected`). -/
theorem c8_bitmap_table_invariant (st : CtrlState) (h : CtrlReach st) :
    (addrBit st.addressUsed 0 = true ∧ addrBit st.addressUsed 1 = true ∧
      addrBit st.addressUsed 170 = true) ∧
    (∀ b, b < 256 → b ≠ 0 → b ≠ 1 → b ≠ 170 →
      (addrBit st.addressUsed b = true ↔ ∃ d ∈ st.devices, d.address = b)) := by
  obtain ⟨_, hb0, hb1, hbA, hiff, _, _⟩ := ctrlInv_reach st h
  exact ⟨⟨hb0, hb1, hbA⟩, hiff⟩

set_option maxRecDepth 8192 in
/-- Witness for C8: the state reached by enumerating one device (serial
`[9,…,9]`, assigned address `0x02`, acknowledgement good) satisfies the
invariant. -/
theorem c8_bitmap_table_invariant_witness :
    (addrBit (CtrlState.mk [7, 0, 4398046511104, 0]
        [⟨[9, 9, 9, 9, 9, 9, 9, 9, 9, 9], 2, false⟩]).addressUsed 0 = true ∧
      addrBit (CtrlState.mk [7, 0, 4398046511104, 0]
        [⟨[9, 9, 9, 9, 9, 9, 9, 9, 9, 9], 2, false⟩]).addressUsed 1 = true ∧
      addrBit (CtrlState.mk [7, 0, 4398046511104, 0]
        [⟨[9, 9, 9, 9, 9, 9, 9, 9, 9, 9], 2, false⟩]).addressUsed 170 = true) ∧
    (∀ b, b < 256 → b ≠ 0 → b ≠ 1 → b ≠ 170 →
      (addrBit (CtrlState.mk [7, 0, 4398046511104, 0]
          [⟨[9, 9, 9, 9, 9, 9, 9, 9, 9, 9], 2, false⟩]).addressUsed b = true ↔
        ∃ d ∈ (CtrlState.mk [7, 0, 4398046511104, 0]
          [⟨[9, 9, 9, 9, 9, 9, 9, 9, 9, 9], 2, false⟩]).devices, d.address = b)) :=
  c8_bitmap_table_invariant
    ⟨[7, 0, 4398046511104, 0], [⟨[9, 9, 9, 9, 9, 9, 9, 9, 9, 9], 2, false⟩]⟩
    (CtrlReach.step CtrlReach.init
      (CtrlStep.detectNew ctrlInit [9, 9, 9, 9, 9, 9, 9, 9, 9, 9] true 2
        [7, 0, 4398046511104, 0] (by simp [ctrlInit]) (by decide)))

end BattGo

namespace BattGo

/-! ## Battery driver (`battery.go`) and command timeout (`controller.go`) -/

/-- `readData` of the battery driver, as a function of the outcome
`(resp, err)` of `CommandExecTimeout`, the expected reply opcode, the cached
record bytes and the record decoder (`deltaFunc`, itself a function of the
freshly stored bytes). Returns `(active, error, new cache)`. -/
def readData (resp : Option (List Nat)) (err : Option Nat) (expectedReply : Nat)
    (cache : List Nat) (delta : List Nat → Bool × Option Nat) :
    Bool × Option Nat × List Nat :=
  match resp with
  | none => (false, err, cache)
  | some r =>
      if r.length = 0 ∨ r.headD 0 ≠ expectedReply then (false, err, cache)
      else if r ≠ cache then ((delta r).1, (delta r).2, r)
      else (true, err, cache)

/-- Go `byte(x)` applied to a possibly negative `int`. -/
def byteOfInt (n : Int) : Nat := (n % 256).toNat

/-- Go `int(int8(b))` for a byte `b`. -/
def int8OfByte (b : Nat) : Int := if b < 128 then (b : Int) else (b : Int) - 256

/-- The round-robin state of the battery driver: `readIndex` plus the
`BatteryNumberOfCells` field it reads for the cursor-0 request. -/
structure AccState where
  readIndex : Int
  numCells : Nat
  deriving DecidableEq, Repr

/-- One `Access` call: pre-increments `readIndex` and selects the request.
Returns `(new state, request bytes, expected reply opcode, signals-update)`.
The cursor-0 branch signals an update unconditionally and its third request
byte is `byte(BatteryNumberOfCells - 1)` (the source also computes a local
`numCell` with a fallback to 8, but never uses it in the request); the
default branch (cursor 4) resets the cursor to `-1`. -/
def accessRequest (s : AccState) : AccState × List Nat × Nat × Bool :=
  let i := s.readIndex + 1
  if i = 0 then
    ({ s with readIndex := i }, [0x44, 0, byteOfInt ((s.numCells : Int) - 1)], 0x45, true)
  else if i = 1 then ({ s with readIndex := i }, [0x4A], 0x4B, false)
  else if i = 2 then ({ s with readIndex := i }, [0x42], 0x43, false)
  else if i = 3 then ({ s with readIndex := i }, [0x84], 0x85, false)
  else ({ s with readIndex := -1 }, [0x88], 0x89, false)

/-- The parsed battery fields touched by `deltaState` (voltages as exact
rationals in volts; `LastData` as an abstract timestamp). -/
structure BState where
  cellVoltageV : List ℚ
  tempCurrentC : Int
  lastData : Nat
  deriving DecidableEq, Repr

/-- `deltaState`: decode a current-state record into the snapshot. The cell
count is `currentState[2] + 1`; `CellVoltageV` is reallocated to a zeroed
slice whenever its length differs, before the record length is checked.
Returns `(new snapshot, changed, error)`; the error is always `nil`. -/
def deltaState (cs : List Nat) (d : BState) (now : Nat) : BState × Bool × Option Nat :=
  if cs.length < 6 ∨ cs.getD 1 0 ≠ 0 then (d, false, none)
  else
    let numCell := cs.getD 2 0 + 1
    let d1 := if d.cellVoltageV.length ≠ numCell then
        { d with cellVoltageV := List.replicate numCell 0 } else d
    if cs.length < 3 + 1 + 2 * numCell then (d1, false, none)
    else
      ({ d1 with
          cellVoltageV := (List.range numCell).map (fun i =>
            ((cs.getD (3 + 2 * i) 0 + 256 * cs.getD (3 + 2 * i + 1) 0 : ℚ) / 1000)),
          tempCurrentC := int8OfByte (cs.getD (3 + 2 * numCell) 0),
          lastData := now }, true, none)

/-- `commandExec`, as a function of the environment: `writeErr` is the result
of the PHY write, `resp` a response captured before the deadline (`none` when
none arrived in time), `ctxErr` the error `WaitCtx` reports when the context
fires. -/
def commandExec (writeErr : Option Nat) (resp : Option (List Nat))
    (ctxErr : Option Nat) : Option (List Nat) × Option Nat :=
  match writeErr with
  | some e => (none, some e)
  | none =>
      match resp with
      | some r => (some r, none)
      | none => (none, ctxErr)

/-- `commandExecTimeout`: timeout `0` selects the 150 ms default; after
`commandExec`, a fired context (no write error and no response before the
deadline) masks the result to `(nil, nil)`. Returns
`(deadline in ms, response, error)`. -/
def commandExecTimeout (timeout : Nat) (writeErr : Option Nat)
    (resp : Option (List Nat)) (ctxErr : Option Nat) :
    Nat × Option (List Nat) × Option Nat :=
  let t := if timeout = 0 then 150 else timeout
  let r := commandExec writeErr resp ctxErr
  if writeErr = none ∧ resp = none then (t, none, none) else (t, r.1, r.2)

end BattGo

namespace BattGo

/-- C3 (amended): `readData` reports `active = false` when the command
returns no response (timeout or transport error, both arriving as
`resp = none`), when the response is empty, when the response's first byte
differs from the expected reply opcode, or when the bytes changed and the
record decoder reports no change; on an opcode mismatch the response is
indeed ignored (the cache is left unchanged) but `active` is `false`, not
`true`. -/
theorem c3_readData_active (resp : Option (List Nat)) (err : Option Nat)
    (expectedReply : Nat) (cache : List Nat)
    (delta : List Nat → Bool × Option Nat) :
    ((readData resp err expectedReply cache delta).1 = false ↔
      resp = none ∨ ∃ r, resp = some r ∧
        (r.length = 0 ∨ r.headD 0 ≠ expectedReply ∨
          (r ≠ cache ∧ (delta r).1 = false))) ∧
    (∀ r, resp = some r → r.length = 0 ∨ r.headD 0 ≠ expectedReply →
      (readData resp err expectedReply cache delta).2.2 = cache) := by
  constructor
  · rcases resp with _ | r
    · simp [readData]
    · simp only [readData, Option.some.injEq]
      by_cases hop : r.length = 0 ∨ r.headD 0 ≠ expectedReply
      · rw [if_pos hop]
        constructor
        · intro _
          right
          exact ⟨r, rfl, by tauto⟩
        · intro _
          rfl
      · rw [if_neg hop]
        push_neg at hop
        by_cases hc : r = cache
        · rw [if_neg (by simp [hc])]
          simp only [Bool.true_eq_false, false_iff]
          rintro (h | ⟨r', hr', h⟩)
          · exact Option.noConfusion h
          · obtain rfl : r = r' := hr'
            rcases h with h | h | h
            · exact hop.1 h
            · exact h hop.2
            · exact h.1 hc
        · rw [if_pos hc]
          constructor
          · intro h
            exact Or.inr ⟨r, rfl, Or.inr (Or.inr ⟨hc, h⟩)⟩
          · rintro (h | ⟨r', hr', h⟩)
            · exact Option.noConfusion h
            · obtain rfl : r = r' := hr'
              rcases h with h | h | h
              · exact absurd h hop.1
              · exact absurd hop.2 h
              · exact h.2
  · rintro r rfl hop
    simp only [readData]
    rw [if_pos hop]

/-- Counterexample to C3 as stated: a non-empty response whose first byte is
not the expected opcode (`0x00` against expected `0x45`) makes `readData`
return `active = false` — the claim says `active` stays `true` in this case.
The cache is nevertheless left unchanged. -/
theorem c3_counterexample_opcode_mismatch :
    (readData (some [0]) none 69 [] (fun _ => (true, none))).1 = false ∧
    (readData (some [0]) none 69 [] (fun _ => (true, none))).2.2 = [] := by
  decide

/-- Witness for C3: timeout (`resp = none`) gives `active = false`, and a
matching fresh response with a successful decoder gives `active = true`;
the opcode-mismatch case keeps the cache. -/
theorem c3_readData_active_witness :
    ((readData none none 69 [] (fun _ => (true, none))).1 = false ↔
      (none : Option (List Nat)) = none ∨ ∃ r, (none : Option (List Nat)) = some r ∧
        (r.length = 0 ∨ r.headD 0 ≠ 69 ∨ (r ≠ [] ∧ ((fun (_ : List Nat) => ((true : Bool), (none : Option Nat))) r).1 = false))) ∧
    (∀ r, (some [0] : Option (List Nat)) = some r → r.length = 0 ∨ r.headD 0 ≠ 69 →
      (readData (some [0]) none 69 [] (fun _ => (true, none))).2.2 = []) :=
  ⟨(c3_readData_active none none 69 [] (fun _ => (true, none))).1,
   (c3_readData_active (some [0]) none 69 [] (fun _ => (true, none))).2⟩

end BattGo

namespace BattGo

/-- C4 (amended): `readIndex` is pre-incremented, so the first `Access` call
of a fresh driver is cursor 1 and issues the cycle-info request `{0x4A}`;
the first five requests are `{0x4A}, {0x42}, {0x84}, {0x88}` and then —
cursor 0, reached on the fifth call — `{0x44, 0x00, 0xFF}` when
`BatteryNumberOfCells` is still `0` (`byte(0-1) = 255`); after cursor 4 the
cursor is set to `-1` so the next increment lands on cursor 0, and every
cursor-0 call signals an update regardless of change. -/
theorem c4_access_cursor (s : AccState) :
    ((accessRequest ⟨0, 0⟩).2.1 = [0x4A] ∧
     (accessRequest (accessRequest ⟨0, 0⟩).1).2.1 = [0x42] ∧
     (accessRequest (accessRequest (accessRequest ⟨0, 0⟩).1).1).2.1 = [0x84] ∧
     (accessRequest (accessRequest (accessRequest (accessRequest ⟨0, 0⟩).1).1).1).2.1
       = [0x88] ∧
     (accessRequest (accessRequest (accessRequest (accessRequest
        ⟨0, 0⟩).1).1).1).1.readIndex = -1 ∧
     (accessRequest (accessRequest (accessRequest (accessRequest (accessRequest
        ⟨0, 0⟩).1).1).1).1).2.1 = [0x44, 0, 255]) ∧
    (s.readIndex = -1 →
      (accessRequest s).2.2.2 = true ∧
      (accessRequest s).1.readIndex = 0 ∧
      (accessRequest s).2.1 = [0x44, 0, byteOfInt ((s.numCells : Int) - 1)] ∧
      (s.numCells = 0 → (accessRequest s).2.1 = [0x44, 0, 255])) ∧
    (s.readIndex = 3 → (accessRequest s).1.readIndex = -1) := by
  refine ⟨by decide, ?_, ?_⟩
  · intro h
    have h0 : s.readIndex + 1 = 0 := by omega
    simp only [accessRequest, h0, if_true]
    refine ⟨trivial, trivial, trivial, ?_⟩
    intro hn
    rw [hn]
    rfl
  · intro h
    have h4 : s.readIndex + 1 = 4 := by omega
    simp only [accessRequest, h4]
    norm_num

/-- Counterexample to C4 as stated: the first call to `Access` on a fresh
driver does not issue the current-state request `{0x44, 0x00, 0xFF}` — the
pre-increment makes it cursor 1, issuing the cycle-info request `{0x4A}`. -/
theorem c4_counterexample_first_call :
    (accessRequest ⟨0, 0⟩).2.1 = [0x4A] ∧
    (accessRequest ⟨0, 0⟩).2.1 ≠ [0x44, 0, 255] := by
  decide

/-- Witness for C4: the cursor-0 and cursor-4 clauses at concrete states. -/
theorem c4_access_cursor_witness :
    ((-1 : Int) = -1 ∧
      ((accessRequest ⟨-1, 0⟩).2.2.2 = true ∧
       (accessRequest ⟨-1, 0⟩).1.readIndex = 0 ∧
       (accessRequest ⟨-1, 0⟩).2.1 = [0x44, 0, byteOfInt ((0 : Nat) - 1 : Int)] ∧
       ((0 : Nat) = 0 → (accessRequest ⟨-1, 0⟩).2.1 = [0x44, 0, 255]))) ∧
    ((3 : Int) = 3 ∧ (accessRequest ⟨3, 7⟩).1.readIndex = -1) :=
  ⟨⟨rfl, (c4_access_cursor ⟨-1, 0⟩).2.1 rfl⟩,
   ⟨rfl, (c4_access_cursor ⟨3, 7⟩).2.2 rfl⟩⟩

/-- C10: when `deltaState` sees a record with `currentState[1] = 0` whose
declared cell count `currentState[2] + 1` differs from the current length of
`CellVoltageV`, it reallocates `CellVoltageV` to a zeroed slice of the new
length before the length check; a record too short for its declared cell
count therefore resizes and zeroes `CellVoltageV`, leaves `TempCurrentC` and
`LastData` unchanged, and reports `(false, nil)`. -/
theorem c10_deltaState_short_record (cs : List Nat) (d : BState) (now : Nat)
    (h6 : 6 ≤ cs.length) (h1 : cs.getD 1 0 = 0)
    (hne : d.cellVoltageV.length ≠ cs.getD 2 0 + 1)
    (hshort : cs.length < 3 + 1 + 2 * (cs.getD 2 0 + 1)) :
    deltaState cs d now =
      ({ d with cellVoltageV := List.replicate (cs.getD 2 0 + 1) 0 }, false, none) := by
  unfold deltaState
  rw [if_neg (by push_neg; exact ⟨by omega, h1⟩)]
  dsimp only
  rw [if_pos hne, if_pos hshort]

/-- Witness for C10: record `[0x45, 0, 9, 0, 0, 0]` (declares 10 cells, too
short to hold them) against an empty snapshot: `CellVoltageV` becomes ten
zeros, temperature and timestamp stay, result `(false, nil)`. -/
theorem c10_deltaState_short_record_witness :
    (6 ≤ ([69, 0, 9, 0, 0, 0] : List Nat).length ∧
      ([69, 0, 9, 0, 0, 0] : List Nat).getD 1 0 = 0 ∧
      ([] : List ℚ).length ≠ ([69, 0, 9, 0, 0, 0] : List Nat).getD 2 0 + 1 ∧
      ([69, 0, 9, 0, 0, 0] : List Nat).length <
        3 + 1 + 2 * (([69, 0, 9, 0, 0, 0] : List Nat).getD 2 0 + 1)) ∧
    deltaState [69, 0, 9, 0, 0, 0] ⟨[], -3, 11⟩ 5 =
      (⟨List.replicate 10 0, -3, 11⟩, false, none) :=
  ⟨⟨by decide, by decide, by decide, by decide⟩,
   c10_deltaState_short_record [69, 0, 9, 0, 0, 0] ⟨[], -3, 11⟩ 5
     (by decide) (by decide) (by decide) (by decide)⟩

/-- C9: `CommandExecTimeout` with timeout `0` uses the 150 ms default; when
no response arrives before the deadline (and the write succeeded) it returns
`(nil, nil)` — the distinct no-response outcome — whereas a PHY write failure
makes it return `(nil, e)` with the non-nil write error. -/
theorem c9_commandExecTimeout (timeout : Nat) (writeErr : Option Nat)
    (resp : Option (List Nat)) (ctxErr : Option Nat) :
    ((commandExecTimeout 0 writeErr resp ctxErr).1 = 150) ∧
    (commandExecTimeout 0 none none ctxErr = (150, none, none)) ∧
    (∀ e, commandExecTimeout 0 (some e) resp ctxErr = (150, none, some e)) := by
  refine ⟨?_, ?_, ?_⟩
  · simp only [commandExecTimeout]
    split <;> rfl
  · rfl
  · intro e
    simp only [commandExecTimeout, commandExec]
    rw [if_neg (by simp)]
    simp

end BattGo
